import Mathlib

/-!
Verification development for `design_bench/oracles/approximate/gaussian_process_oracle.py`:
a shallow embedding of the `DiscreteSequenceKernel` helper class and the
`GaussianProcessOracle` adapter class, with theorems settling the specified
properties. Machine floating-point literals (0.9, 0.1, ...) are embedded as
exact rationals; numpy arrays become lists of rationals with numpy's
out-of-range-free `getD`-style access made explicit.
-/

namespace DesignBench

/-- A kernel matrix (`self.kernel_matrix`), embedded as a list of rows of
rationals. -/
abbrev Mat := List (List ℚ)

/-- Entry access `M[i][j]`, with 0 returned out of range. -/
def matGet (M : Mat) (i j : Nat) : ℚ := (M.getD i []).getD j 0

/-- `DiscreteSequenceKernel.evaluate_kernel(x, y)` (line 16-17):
`self.kernel_matrix[x][:, y].sum()` — the sum of the similarity-matrix entries
selected by the cross product of the tokens of `x` and the tokens of `y`. -/
def evaluate_kernel (M : Mat) (x y : List Nat) : ℚ :=
  (x.map (fun a => (y.map (fun b => matGet M a b)).sum)).sum

/-- `DiscreteSequenceKernel.__call__(X, Y=None)` (lines 19-21): the matrix of
`evaluate_kernel(x, y)` over all pairs, with `X` used for both sides when `Y`
is omitted. -/
def kernelCall (M : Mat) (X : List (List Nat)) (Y : Option (List (List Nat))) :
    List (List ℚ) :=
  X.map (fun x => (Y.getD X).map (fun y => evaluate_kernel M x y))

/-- `DiscreteSequenceKernel.diag(X)` (lines 23-24):
`[self.evaluate_kernel(x, x) for x in X]`. -/
def diag (M : Mat) (X : List (List Nat)) : List ℚ :=
  X.map (fun x => evaluate_kernel M x x)

/-- `DiscreteSequenceKernel.is_stationary` (lines 26-27). -/
def is_stationary : Bool := true

/-- The default kernel matrix built in `fit` (lines 216-218) when the dataset
is discrete and no kernel is supplied:
`0.9 * np.eye(n) + 0.1 * np.ones((n, n))`. -/
def defaultKernelMatrix (n : Nat) : Mat :=
  (List.range n).map (fun i =>
    (List.range n).map (fun j =>
      (9 : ℚ)/10 * (if i = j then 1 else 0) + (1 : ℚ)/10 * 1))

/-- Modelled behavior of `np.random.choice(N, replace=False, size=k)`
(lines 237-238): it draws `k` distinct indices from `{0, ..., N-1}`; the
randomness is modelled by an arbitrary duplicate-free permutation `perm` of
the `N` indices, of which the first `k` are taken. -/
def npRandomChoiceNoReplace (perm : List Nat) (size : Nat) : List Nat :=
  perm.take size

/-- The index set drawn by the sub-sampling step of `fit` (lines 235-238),
which passes `size = min(y.shape[0], max_samples)` where `N = y.shape[0]` is
the dataset size. -/
def fitSampleIndices (N max_samples : Nat) (perm : List Nat) : List Nat :=
  npRandomChoiceNoReplace perm (min N max_samples)

/-- Fancy-indexing `rows[indices]` as in `x = x[indices]` / `y = y[indices]`
(lines 239-240). -/
def selectRows {α : Type} (rows : List α) (idx : List Nat) (d : α) : List α :=
  idx.map (fun i => rows.getD i d)

/-- Stage of the `fit` body (lines 232-255) in which an external call may
raise: indexing/sub-sampling, the normalization calls, or the regression
library's `model.fit`. -/
inductive FitStage
  | subSampling
  | normalization
  | modelFitting
deriving DecidableEq

/-- The dataset state visible to `fit`, restricted to the one field it
mutates: the `_disable_transform` flag. -/
structure DatasetFlags where
  disable_transform : Bool
deriving DecidableEq

/-- The `_disable_transform` mutations of `GaussianProcessOracle.fit`
(lines 229-259): the flag is assigned `True` (line 231), the body runs with no
surrounding try/finally, and only on normal completion is the flag assigned
`False` (line 258). `raiseAt = some s` means the external call of stage `s`
raises; the exception propagates and the `Except` error carries the dataset
state observed by the caller at that exit. -/
def fitTransformWindow (ds : DatasetFlags) (raiseAt : Option FitStage) :
    Except DatasetFlags DatasetFlags :=
  let ds1 : DatasetFlags := { ds with disable_transform := true }
  match raiseAt with
  | some _ => .error ds1
  | none => .ok { ds1 with disable_transform := false }

/-- The dataset state at the exit of `fit`, on either exit path. -/
def exitFlags : Except DatasetFlags DatasetFlags → DatasetFlags
  | .error s => s
  | .ok s => s

/-- `GaussianProcessOracle.check_input_format` (lines 119-139): returns
`True` for any dataset. -/
def check_input_format {α : Type} (dataset : α) : Bool := true

/-- `GaussianProcessOracle.protected_score` (lines 261-283):
`self.model.predict(x)[:, np.newaxis]`, with the fitted model's `predict`
method passed in as a function; `[:, np.newaxis]` turns the length-`b` vector
of predictions into a `b × 1` column. -/
def protected_score (predict : List (List ℚ) → List ℚ)
    (x : List (List ℚ)) : List (List ℚ) :=
  (predict x).map (fun v => [v])

/-- Classification of a numpy dtype by `np.issubdtype(x.dtype, np.floating)`
(lines 245 and 248). -/
inductive NPDType
  | floating
  | integer
deriving DecidableEq

/-- The design tensor as it flows through the dtype-dependent preprocessing
of `fit` (lines 242-251), as a free term recording which conversions were
applied. Modelled from the spec: `DiscreteDataset.to_integers` and
`DatasetBuilder.normalize_x` are dataset methods defined outside this file;
per the spec, `to_integers` converts a floating one-hot/logit representation
back to integer class indices (so its result has integer dtype) and
`normalize_x` is the input-normalization transform on floating-point data (so
its result has floating dtype). -/
inductive XTensor
  | raw (dtype : NPDType)
  | to_integers (t : XTensor)
  | normalize_x (t : XTensor)
deriving DecidableEq

/-- The numpy dtype of a (possibly converted) design tensor. -/
def XTensor.dtype : XTensor → NPDType
  | .raw d => d
  | .to_integers _ => .integer
  | .normalize_x _ => .floating

/-- The discrete-to-integers branch of `fit` (lines 244-246):
`if isinstance(dataset, DiscreteDataset) and np.issubdtype(x.dtype,
np.floating): x = dataset.to_integers(x)`. -/
def fitConvertX (isDiscrete : Bool) (x : XTensor) : XTensor :=
  if isDiscrete = true ∧ x.dtype = .floating then .to_integers x else x

/-- The input-normalization branch of `fit` (lines 248-249), applied after
the conversion branch: `if np.issubdtype(x.dtype, np.floating):
x = dataset.normalize_x(x)`. -/
def fitPreprocessX (isDiscrete : Bool) (x : XTensor) : XTensor :=
  let x1 := fitConvertX isDiscrete x
  if x1.dtype = .floating then .normalize_x x1 else x1

/-- Pickled object graphs: the serialized form of a model is modelled as a
tree of numbers and arrays, a generic object-serialization format per the
spec. -/
inductive PValue
  | num (q : ℚ)
  | arr (items : List PValue)

/-- The kernel configuration of a fitted model: either the discrete sequence
kernel's similarity matrix or the RBF kernel's length-scale. -/
inductive GPKernelSpec
  | discrete (kernel_matrix : Mat)
  | rbf (length_scale : ℚ)

/-- Modelled from the spec: the fitted GP regression model object that the
persistence hooks pickle — an opaque object of the wrapped regression
library, represented by its defining data (kernel configuration and the
training set actually used to fit). -/
structure GPModel where
  kernel : GPKernelSpec
  train_x : List (List ℚ)
  train_y : List ℚ

/-- Serialization of one row of rationals. -/
def encRow (r : List ℚ) : PValue := .arr (r.map PValue.num)

/-- Serialization of a matrix of rationals. -/
def encMat (M : Mat) : PValue := .arr (M.map encRow)

/-- Serialization of the kernel configuration, with a numeric tag per
variant. -/
def pklDumpKernel : GPKernelSpec → PValue
  | .discrete M => .arr [.num 0, encMat M]
  | .rbf s => .arr [.num 1, .num s]

/-- Modelled behavior of `pickle.dump` on the model object (line 160): a
lossless dump of the model's object graph. -/
def pklDump (m : GPModel) : PValue :=
  .arr [pklDumpKernel m.kernel, encMat m.train_x, encRow m.train_y]

/-- Deserialization of a number. -/
def decNum : PValue → Option ℚ
  | .num q => some q
  | _ => none

/-- Deserialization of a list, failing if any element fails. -/
def decOptList {α : Type} (f : PValue → Option α) :
    List PValue → Option (List α)
  | [] => some []
  | v :: vs =>
    match f v, decOptList f vs with
    | some a, some r => some (a :: r)
    | _, _ => none

/-- Deserialization of one row of rationals. -/
def decRow : PValue → Option (List ℚ)
  | .arr items => decOptList decNum items
  | _ => none

/-- Deserialization of a matrix of rationals. -/
def decMat : PValue → Option Mat
  | .arr rows => decOptList decRow rows
  | _ => none

/-- Deserialization of the kernel configuration. -/
def pklLoadKernel (v : PValue) : Option GPKernelSpec :=
  match v with
  | .arr [tag, payload] =>
    match decNum tag with
    | some t =>
      if t = 0 then (decMat payload).map GPKernelSpec.discrete
      else if t = 1 then
        match decNum payload with
        | some s => some (GPKernelSpec.rbf s)
        | none => none
      else none
    | none => none
  | _ => none

/-- Modelled behavior of `pickle.load` (line 183): parse the object graph
back into a model, failing on a malformed graph. -/
def pklLoad (v : PValue) : Option GPModel :=
  match v with
  | .arr [k, tx, ty] =>
    match pklLoadKernel k, decMat tx, decRow ty with
    | some kk, some xx, some yy => some ⟨kk, xx, yy⟩
    | _, _, _ => none
  | _ => none

/-- A zip archive handle, modelled as the list of its named entries, most
recently written first; `zip_archive.open(name, "w")` adds an entry and
`zip_archive.open(name, "r")` reads the entry of that name. -/
abbrev ZipArchive := List (String × PValue)

/-- Writing an entry to the archive. -/
def zipWriteEntry (a : ZipArchive) (name : String) (v : PValue) :
    ZipArchive :=
  (name, v) :: a

/-- Reading the entry of a given name from the archive. -/
def zipReadEntry (a : ZipArchive) (name : String) : Option PValue :=
  (a.find? (fun e => e.1 == name)).map (fun e => e.2)

/-- `GaussianProcessOracle.save_model_to_zip` (lines 141-160): opens the
single archive entry `gaussian_process.pkl` for writing and pickles the model
into it. -/
def save_model_to_zip (model : GPModel) (zip_archive : ZipArchive) :
    ZipArchive :=
  zipWriteEntry zip_archive "gaussian_process.pkl" (pklDump model)

/-- `GaussianProcessOracle.load_model_from_zip` (lines 162-183): opens the
single archive entry `gaussian_process.pkl` for reading and unpickles the
model. -/
def load_model_from_zip (zip_archive : ZipArchive) : Option GPModel :=
  (zipReadEntry zip_archive "gaussian_process.pkl").bind pklLoad

/-! ### Helper lemmas about list sums -/

theorem sum_map_add {α : Type} (g h : α → ℚ) (l : List α) :
    (l.map (fun b => g b + h b)).sum = (l.map g).sum + (l.map h).sum := by
  induction l with
  | nil => simp
  | cons a t ih => simp [ih]; ring

theorem sum_map_swap {α β : Type} (f : α → β → ℚ) (x : List α) (y : List β) :
    (x.map (fun a => (y.map (fun b => f a b)).sum)).sum
      = (y.map (fun b => (x.map (fun a => f a b)).sum)).sum := by
  induction x with
  | nil => simp
  | cons a t ih => simp [ih, sum_map_add]

/-- Exchanging the two arguments of `evaluate_kernel` transposes the selected
entries, so the value is preserved whenever the kernel matrix is symmetric. -/
theorem evaluate_kernel_comm (M : Mat)
    (hM : ∀ i j, matGet M i j = matGet M j i) (x y : List Nat) :
    evaluate_kernel M x y = evaluate_kernel M y x := by
  unfold evaluate_kernel
  rw [sum_map_swap]
  congr 1
  apply List.map_congr_left
  intro b _
  congr 1
  apply List.map_congr_left
  intro a _
  exact (hM b a).symm

/-- In-range entry of the Gram matrix `__call__(X)` (with `Y` omitted). -/
theorem kernelCall_entry (M : Mat) (X : List (List Nat)) (i j : Nat)
    (hi : i < X.length) (hj : j < X.length) :
    ((kernelCall M X none).getD i []).getD j 0
      = evaluate_kernel M (X.getD i []) (X.getD j []) := by
  unfold kernelCall
  simp only [Option.getD_none, List.getD_eq_getElem?_getD, List.getElem?_map]
  rw [List.getElem?_eq_getElem hi]
  simp only [Option.map_some', Option.getD_some, List.getElem?_map]
  rw [List.getElem?_eq_getElem hj]
  simp only [Option.map_some', Option.getD_some]

/-! ### C2: entries of the default discrete kernel matrix -/

/-- C2 (counterexample): the claim says every diagonal entry of the default
kernel matrix is exactly 0.9; in the code the diagonal entry is
`0.9 * 1 + 0.1 * 1 = 1.0`, exhibited here at alphabet size 2, entry (0,0). -/
theorem defaultKernelMatrix_diag_not_09 :
    matGet (defaultKernelMatrix 2) 0 0 = 1 ∧
      matGet (defaultKernelMatrix 2) 0 0 ≠ 9/10 := by
  constructor <;> norm_num [matGet, defaultKernelMatrix, List.range_succ]

/-- C2 (amended): for every discrete alphabet size `n ≥ 1`, the default kernel
matrix built by `fit` when the dataset is discrete and no kernel is supplied
(`0.9 * np.eye(n) + 0.1 * np.ones((n, n))`, lines 216-218) is an `n × n`
matrix whose diagonal entries are exactly 1.0 and whose off-diagonal entries
are exactly 0.1. -/
theorem defaultKernelMatrix_entries (n i j : Nat) (hi : i < n) (hj : j < n) :
    matGet (defaultKernelMatrix n) i j = if i = j then 1 else 1/10 := by
  simp only [matGet, defaultKernelMatrix, List.getD_eq_getElem?_getD,
    List.getElem?_map, List.getElem?_range hi, Option.map_some',
    Option.getD_some]
  rw [List.getElem?_range hj]
  simp only [Option.map_some', Option.getD_some]
  split <;> norm_num

/-- C2 (witness): the amended entry formula evaluated at `n = 2`. -/
theorem defaultKernelMatrix_entries_witness :
    (0 < 2 ∧ 1 < 2) ∧
      matGet (defaultKernelMatrix 2) 0 1 = if 0 = 1 then 1 else 1/10 :=
  ⟨⟨by decide, by decide⟩,
    defaultKernelMatrix_entries 2 0 1 (by decide) (by decide)⟩

/-- The default kernel matrix has the expected square shape. -/
theorem defaultKernelMatrix_shape (n : Nat) :
    (defaultKernelMatrix n).length = n ∧
      ∀ row ∈ defaultKernelMatrix n, row.length = n := by
  constructor
  · simp [defaultKernelMatrix]
  · intro row hrow
    simp only [defaultKernelMatrix, List.mem_map] at hrow
    obtain ⟨i, _, rfl⟩ := hrow
    simp

/-! ### C4: symmetry of the Gram matrix -/

/-- C4 (counterexample): the claim quantifies over every kernel matrix, but
with the non-symmetric matrix `[[0,1],[0,0]]` and the batch `[[0],[1]]` the
Gram matrix of `__call__` has entry (0,1) = 1 and entry (1,0) = 0, so it is not
symmetric. -/
theorem gram_asymmetric_counterexample :
    ((kernelCall [[0, 1], [0, 0]] [[0], [1]] none).getD 0 []).getD 1 0 = 1 ∧
      ((kernelCall [[0, 1], [0, 0]] [[0], [1]] none).getD 1 []).getD 0 0 = 0 ∧
      ((kernelCall [[0, 1], [0, 0]] [[0], [1]] none).getD 0 []).getD 1 0 ≠
        ((kernelCall [[0, 1], [0, 0]] [[0], [1]] none).getD 1 []).getD 0 0 := by
  refine ⟨?_, ?_, ?_⟩ <;>
    norm_num [kernelCall, evaluate_kernel, matGet, List.getD]

/-- C4 (amended): for every SYMMETRIC kernel matrix and every batch `X` of
token sequences, the Gram matrix produced by `__call__` with the second batch
argument omitted is symmetric: entry (i, j) equals entry (j, i). -/
theorem gram_symmetric_of_symmetric_kernel (M : Mat) (X : List (List Nat))
    (i j : Nat) (hM : ∀ a b, matGet M a b = matGet M b a)
    (hi : i < X.length) (hj : j < X.length) :
    ((kernelCall M X none).getD i []).getD j 0
      = ((kernelCall M X none).getD j []).getD i 0 := by
  rw [kernelCall_entry M X i j hi hj, kernelCall_entry M X j i hj hi]
  exact evaluate_kernel_comm M hM _ _

/-- C4 (witness): Gram symmetry applied to the symmetric matrix
`[[1,2],[2,3]]` and the batch `[[0],[1]]` at entry (0,1) vs (1,0). -/
theorem gram_symmetric_witness :
    ((∀ a b, matGet [[1, 2], [2, 3]] a b = matGet [[1, 2], [2, 3]] b a) ∧
        0 < ([[0], [1]] : List (List Nat)).length ∧
        1 < ([[0], [1]] : List (List Nat)).length) ∧
      ((kernelCall [[1, 2], [2, 3]] [[0], [1]] none).getD 0 []).getD 1 0
        = ((kernelCall [[1, 2], [2, 3]] [[0], [1]] none).getD 1 []).getD 0 0 := by
  have hM : ∀ a b, matGet ([[1, 2], [2, 3]] : Mat) a b
      = matGet ([[1, 2], [2, 3]] : Mat) b a := by
    intro a b
    rcases a with _ | _ | a <;> rcases b with _ | _ | b <;>
      simp [matGet, List.getD]
  exact ⟨⟨hM, by decide, by decide⟩,
    gram_symmetric_of_symmetric_kernel [[1, 2], [2, 3]] [[0], [1]] 0 1 hM
      (by decide) (by decide)⟩

/-! ### C5: diag agrees with evaluate_kernel -/

/-- C5: for every kernel matrix `M`, batch `X` and position `i`, the entry of
`diag(X)` at `i` equals `evaluate_kernel` applied to the sequence at `i` paired
with itself (out of range, both sides are the default 0). -/
theorem diag_matches_evaluate_kernel (M : Mat) (X : List (List Nat)) (i : Nat) :
    (diag M X).getD i 0 = evaluate_kernel M (X.getD i []) (X.getD i []) := by
  unfold diag
  by_cases h : i < X.length
  · simp only [List.getD_eq_getElem?_getD, List.getElem?_map,
      List.getElem?_eq_getElem h, Option.map_some', Option.getD_some]
  · rw [List.getD_eq_default _ _ (by simpa using Nat.le_of_not_lt h),
      List.getD_eq_default _ _ (Nat.le_of_not_lt h)]
    simp [evaluate_kernel]

/-! ### C3: sub-sampling draws min(N, max_samples) distinct indices -/

/-- C3: for every dataset size `N` and every `max_samples`, the sub-sampling
step of `fit` draws exactly `min N max_samples` indices, the drawn indices are
pairwise distinct (sampling is without replacement), and the selected rows the
model is fitted on number exactly `min N max_samples`. -/
theorem fit_subsample_count_nodup (N max_samples : Nat) (perm : List Nat)
    (rows : List (List ℚ)) (d : List ℚ)
    (hnd : perm.Nodup) (hlen : perm.length = N) :
    (fitSampleIndices N max_samples perm).length = min N max_samples ∧
      (fitSampleIndices N max_samples perm).Nodup ∧
      (selectRows rows (fitSampleIndices N max_samples perm) d).length
        = min N max_samples := by
  have hcount : (fitSampleIndices N max_samples perm).length
      = min N max_samples := by
    simp only [fitSampleIndices, npRandomChoiceNoReplace, List.length_take,
      hlen]
    exact Nat.min_eq_left (Nat.min_le_left N max_samples)
  refine ⟨hcount, ?_, ?_⟩
  · exact List.Nodup.sublist (List.take_sublist _ _) hnd
  · simp only [selectRows, List.length_map, hcount]

/-- C3 (witness): sub-sampling with dataset size 3, `max_samples = 2`, and
the permutation `[2, 0, 1]` as the randomness. -/
theorem fit_subsample_count_nodup_witness :
    (([2, 0, 1] : List Nat).Nodup ∧ ([2, 0, 1] : List Nat).length = 3) ∧
      ((fitSampleIndices 3 2 [2, 0, 1]).length = min 3 2 ∧
        (fitSampleIndices 3 2 [2, 0, 1]).Nodup ∧
        (selectRows [[(5 : ℚ)], [6], [7]] (fitSampleIndices 3 2 [2, 0, 1])
          []).length = min 3 2) :=
  ⟨⟨by decide, by decide⟩,
    fit_subsample_count_nodup 3 2 [2, 0, 1] [[5], [6], [7]] []
      (by decide) (by decide)⟩

/-! ### C1 and C10: the _disable_transform flag across fit -/

/-- C1 (counterexample): the claim says the flag always equals its pre-call
value after `fit` exits, including exceptional exits; but starting from a
dataset with transforms enabled (`_disable_transform = False`), an exception
raised during sub-sampling leaves the flag `True`, so the caller observes the
disabled-transform state. -/
theorem fit_flag_not_restored_on_exception :
    exitFlags (fitTransformWindow ⟨false⟩ (some FitStage.subSampling))
      = ⟨true⟩ ∧
      (⟨true⟩ : DatasetFlags) ≠ (⟨false⟩ : DatasetFlags) := by
  exact ⟨rfl, by decide⟩

/-- C1 (amended): after `fit` returns normally the flag is `False`
unconditionally (so it is restored only when it was `False` before the call),
while an exception raised during sub-sampling, normalization or model fitting
propagates with the flag left `True`, so callers can observe the dataset in
the disabled-transform state. -/
theorem fit_flag_exit_behavior (ds : DatasetFlags) :
    fitTransformWindow ds none = .ok ⟨false⟩ ∧
      ∀ s : FitStage, fitTransformWindow ds (some s) = .error ⟨true⟩ :=
  ⟨rfl, fun _ => rfl⟩

/-- C10: on every normal (non-exceptional) return of `fit`, the dataset's
`_disable_transform` flag equals `False`, regardless of its value before the
call (line 258 assigns `False` unconditionally). -/
theorem fit_flag_false_on_normal_return (ds : DatasetFlags) :
    fitTransformWindow ds none = .ok ⟨false⟩ := rfl

/-! ### C9: check_input_format accepts any dataset -/

/-- C9: for every dataset, `check_input_format` returns `True`: the GP oracle
accepts any dataset unconditionally. -/
theorem check_input_format_always_true {α : Type} (dataset : α) :
    check_input_format dataset = true := rfl

/-! ### C7: protected_score returns a (batch_size, 1) column -/

/-- C7: for every input batch `x` of `batch_size` designs and every fitted
model whose `predict` returns one prediction per input row (the regression
library's contract), `protected_score` returns a column of exactly one score
per design: `batch_size` rows, each of length 1. -/
theorem protected_score_shape (predict : List (List ℚ) → List ℚ)
    (x : List (List ℚ)) (h : (predict x).length = x.length) :
    (protected_score predict x).length = x.length ∧
      ∀ row ∈ protected_score predict x, row.length = 1 := by
  constructor
  · simp [protected_score, h]
  · intro row hrow
    simp only [protected_score, List.mem_map] at hrow
    obtain ⟨v, _, rfl⟩ := hrow
    rfl

/-- C7 (witness): the column shape at a concrete 2-element batch and the
constant-zero prediction function. -/
theorem protected_score_shape_witness :
    ((fun (l : List (List ℚ)) => l.map (fun _ => (0 : ℚ))) [[1], [2]]).length
        = ([[1], [2]] : List (List ℚ)).length ∧
      ((protected_score (fun l => l.map (fun _ => (0 : ℚ)))
          [[1], [2]]).length = ([[1], [2]] : List (List ℚ)).length ∧
        ∀ row ∈ protected_score (fun l => l.map (fun _ => (0 : ℚ)))
          [[1], [2]], row.length = 1) :=
  ⟨rfl, protected_score_shape (fun l => l.map (fun _ => (0 : ℚ)))
    [[1], [2]] rfl⟩

/-! ### C8: dtype-dependent preprocessing in fit -/

/-- No tensor equals its own normalization wrapper (the free term strictly
grows). -/
theorem XTensor.ne_normalize (t : XTensor) : t ≠ XTensor.normalize_x t := by
  induction t with
  | raw d => intro h; exact XTensor.noConfusion h
  | to_integers t ih => intro h; exact XTensor.noConfusion h
  | normalize_x t ih =>
    intro h
    injection h with h2
    exact ih h2

/-- C8: in `fit`, for every discrete dataset whose sub-sampled design tensor
has floating-point dtype, the designs are converted back to integer class
indices via `to_integers` before kernel evaluation, and — the dtype then
being integral — the input-normalization transform is not applied to them;
moreover, for every dataset kind and tensor, normalization is applied exactly
when the (possibly converted) design tensor's dtype is floating-point. -/
theorem fit_preprocess_discrete_float (x : XTensor)
    (hx : x.dtype = NPDType.floating) :
    fitConvertX true x = XTensor.to_integers x ∧
      (fitConvertX true x).dtype = NPDType.integer ∧
      fitPreprocessX true x = XTensor.to_integers x ∧
      ∀ (isDiscrete : Bool) (z : XTensor),
        (fitPreprocessX isDiscrete z
            = XTensor.normalize_x (fitConvertX isDiscrete z)
          ↔ (fitConvertX isDiscrete z).dtype = NPDType.floating) := by
  have hconv : fitConvertX true x = XTensor.to_integers x := by
    simp [fitConvertX, hx]
  refine ⟨hconv, by simp [hconv, XTensor.dtype], ?_, ?_⟩
  · simp [fitPreprocessX, hconv, XTensor.dtype]
  · intro d z
    constructor
    · intro h
      by_cases hd : (fitConvertX d z).dtype = NPDType.floating
      · exact hd
      · exfalso
        rw [fitPreprocessX] at h
        simp only [hd, if_false] at h
        exact XTensor.ne_normalize _ h
    · intro hd
      simp [fitPreprocessX, hd]

/-- C8 (witness): the preprocessing of a raw floating-point tensor in a
discrete dataset. -/
theorem fit_preprocess_discrete_float_witness :
    (XTensor.raw NPDType.floating).dtype = NPDType.floating ∧
      (fitConvertX true (XTensor.raw NPDType.floating)
          = XTensor.to_integers (XTensor.raw NPDType.floating) ∧
        (fitConvertX true (XTensor.raw NPDType.floating)).dtype
          = NPDType.integer ∧
        fitPreprocessX true (XTensor.raw NPDType.floating)
          = XTensor.to_integers (XTensor.raw NPDType.floating) ∧
        ∀ (isDiscrete : Bool) (z : XTensor),
          (fitPreprocessX isDiscrete z
              = XTensor.normalize_x (fitConvertX isDiscrete z)
            ↔ (fitConvertX isDiscrete z).dtype = NPDType.floating)) :=
  ⟨rfl, fit_preprocess_discrete_float (XTensor.raw NPDType.floating) rfl⟩

/-! ### C6: model persistence round-trip -/

theorem decOptList_map {α : Type} (f : α → PValue) (g : PValue → Option α)
    (h : ∀ a, g (f a) = some a) (l : List α) :
    decOptList g (l.map f) = some l := by
  induction l with
  | nil => rfl
  | cons a t ih => simp [decOptList, h, ih]

theorem decRow_encRow (r : List ℚ) : decRow (encRow r) = some r := by
  simp only [encRow, decRow]
  exact decOptList_map PValue.num decNum (fun a => rfl) r

theorem decMat_encMat (M : Mat) : decMat (encMat M) = some M := by
  simp only [encMat, decMat]
  exact decOptList_map encRow decRow decRow_encRow M

theorem pklLoadKernel_dump (k : GPKernelSpec) :
    pklLoadKernel (pklDumpKernel k) = some k := by
  cases k with
  | discrete M => simp [pklDumpKernel, pklLoadKernel, decNum, decMat_encMat]
  | rbf s => norm_num [pklDumpKernel, pklLoadKernel, decNum]

theorem pklLoad_dump (m : GPModel) : pklLoad (pklDump m) = some m := by
  simp [pklDump, pklLoad, pklLoadKernel_dump, decMat_encMat, decRow_encRow]

/-- C6: for every model and archive, serializing with `save_model_to_zip` and
then deserializing with `load_model_from_zip` from the resulting archive
yields the original model — hence a model whose predictions on any fixed
input batch are identical to the original model's — and both functions
operate on the single archive entry named `gaussian_process.pkl`. -/
theorem save_load_roundtrip (model : GPModel) (zip_archive : ZipArchive) :
    load_model_from_zip (save_model_to_zip model zip_archive) = some model ∧
      zipReadEntry (save_model_to_zip model zip_archive)
        "gaussian_process.pkl" = some (pklDump model) ∧
      ∀ (predictFn : GPModel → List (List ℚ) → List ℚ) (x : List (List ℚ)),
        (load_model_from_zip (save_model_to_zip model zip_archive)).map
          (fun m2 => predictFn m2 x) = some (predictFn model x) := by
  have hread : zipReadEntry (save_model_to_zip model zip_archive)
      "gaussian_process.pkl" = some (pklDump model) := by
    simp [zipReadEntry, save_model_to_zip, zipWriteEntry, List.find?]
  have hload : load_model_from_zip (save_model_to_zip model zip_archive)
      = some model := by
    simp [load_model_from_zip, hread, pklLoad_dump]
  exact ⟨hload, hread, fun predictFn x => by simp [hload]⟩

end DesignBench
